import Mathlib

/-!
Verification of the ride-data aggregation Lambda (src/src/main.rs).

The Rust program `get_ride_data` is embedded shallowly:
* Rust strings are `List Char` (`Str`); `str s` coerces a Lean string
  literal.
* DynamoDB `AttributeValue` becomes an inductive with the `S`/`N`/`M`
  variants the code touches (`other` stands for every variant on which
  `as_s`/`as_n`/`as_m` fail).
* Rust `u64`/`u32` string parsing and the `f64` distance parsing are
  modelled as executable `Option`-valued parsers.  Distances are
  carried as exact rationals `ℚ`; this embeds the finite decimal
  fragment of `f64` exactly (every literal appearing in the claims is
  exactly representable).
* chrono's epoch-seconds → UTC+5:30 calendar conversion is embedded via
  the standard civil-from-days algorithm, and `%Y-%m` formatting via an
  explicit digit printer.
* The external world (DynamoDB reads and writes) is a `World` record:
  a query function per device identifier and a success predicate per
  write.  `getRideData` returns the produced result together with the
  list of queries attempted and the list of writes committed, in order.
* A Rust `unwrap` panic, a query error and a put error are the fatal
  outcomes `FatalErr.crash`, `FatalErr.queryError`, `FatalErr.writeError`.
-/

namespace RideData

/-- Rust strings, embedded as character lists. -/
abbrev Str := List Char

/-- Embed a Lean string literal as a `Str`. -/
def str (s : String) : Str := s.toList

/-- DynamoDB attribute values, restricted to the variants the program
inspects.  `other` covers every remaining variant: on it `asS`, `asN`
and `asM` all fail, exactly as Rust's `as_s()`/`as_n()`/`as_m()` do. -/
inductive AttributeValue where
  | S (s : Str)
  | N (s : Str)
  | M (m : List (Str × AttributeValue))
  | other

/-- A DynamoDB item: `HashMap<String, AttributeValue>` modelled as an
association list (first binding wins, as `get` does). -/
abbrev Item := List (Str × AttributeValue)

/-- Rust `v.as_s().ok()`. -/
def AttributeValue.asS : AttributeValue → Option Str
  | .S s => some s
  | _ => none

/-- Rust `v.as_n().ok()` (the numeric attribute carries its decimal
string). -/
def AttributeValue.asN : AttributeValue → Option Str
  | .N s => some s
  | _ => none

/-- Rust `v.as_m().ok()`. -/
def AttributeValue.asM : AttributeValue → Option (List (Str × AttributeValue))
  | .M m => some m
  | _ => none

/-! ### Digit printing and integer parsing -/

/-- The ASCII digit character for `d` (`d ≤ 9`; larger inputs clamp to
`'9'`, but the function is only ever applied to `n % 10` and friends). -/
def digitChar (d : Nat) : Char :=
  if d = 0 then '0' else if d = 1 then '1' else if d = 2 then '2'
  else if d = 3 then '3' else if d = 4 then '4' else if d = 5 then '5'
  else if d = 6 then '6' else if d = 7 then '7' else if d = 8 then '8'
  else '9'

/-- The numeric value of an ASCII digit character, `none` on anything
else. -/
def digitVal (c : Char) : Option Nat :=
  if c = '0' then some 0 else if c = '1' then some 1 else if c = '2' then some 2
  else if c = '3' then some 3 else if c = '4' then some 4 else if c = '5' then some 5
  else if c = '6' then some 6 else if c = '7' then some 7 else if c = '8' then some 8
  else if c = '9' then some 9 else none

/-- Decimal digit rendering with explicit fuel (structural recursion,
so the kernel can evaluate it); `fuel` bounds the digit count. -/
def natDigitsAux : Nat → Nat → List Char
  | 0, _ => []
  | f + 1, n =>
    if n < 10 then [digitChar n]
    else natDigitsAux f (n / 10) ++ [digitChar (n % 10)]

/-- Decimal digits of `n`, most significant first (the digit part of
chrono's zero-free `%Y` rendering; all years reached from a `u64`
timestamp have at least four digits).  `n + 1` units of fuel always
suffice since `n < 10 ^ (n + 1)`. -/
def natDigits (n : Nat) : List Char := natDigitsAux (n + 1) n

/-- Left-to-right accumulation of a digit string, `none` at the first
non-digit. -/
def parseDigitsAcc : Nat → List Char → Option Nat
  | acc, [] => some acc
  | acc, c :: cs =>
    match digitVal c with
    | none => none
    | some d => parseDigitsAcc (acc * 10 + d) cs

/-- A non-empty all-digits string parsed to its value. -/
def parseNatCore : List Char → Option Nat
  | [] => none
  | c :: cs => parseDigitsAcc 0 (c :: cs)

/-- Rust's unsigned `from_str` accepts one optional leading `+`. -/
def stripPlus : List Char → List Char
  | '+' :: cs => cs
  | cs => cs

/-- Rust `s.parse::<uN>()`: optional `+`, one or more ASCII digits, and
the value must fit below `bound`. -/
def parseRustNat (bound : Nat) (s : Str) : Option Nat :=
  (parseNatCore (stripPlus s)).bind fun n =>
    if n < bound then some n else none

/-- Rust `s.parse::<u64>()`. -/
def parseU64 (s : Str) : Option Nat := parseRustNat (2 ^ 64) s

/-- Rust `s.parse::<u32>()`. -/
def parseU32 (s : Str) : Option Nat := parseRustNat (2 ^ 32) s

/-! ### f64 parsing, embedded over ℚ -/

/-- Longest digit prefix and the remainder. -/
def takeDigits : List Char → List Char × List Char
  | [] => ([], [])
  | c :: cs =>
    match digitVal c with
    | none => ([], c :: cs)
    | some _ =>
      let p := takeDigits cs
      (c :: p.1, p.2)

/-- Value of an all-digit list (`0` for the empty list, used for the
optional integer / fraction parts). -/
def digitsToNat (ds : List Char) : Nat := (parseDigitsAcc 0 ds).getD 0

/-- The exponent tail of a float literal: optional sign, one or more
digits, end of input. -/
def parseExpTail (mant : ℚ) (cs : List Char) : Option ℚ :=
  let p : Int × List Char :=
    match cs with
    | '+' :: r => (1, r)
    | '-' :: r => (-1, r)
    | r => (1, r)
  let q := takeDigits p.2
  match q.1, q.2 with
  | [], _ => none
  | _ :: _, _ :: _ => none
  | _ :: _, [] => some (mant * (10 : ℚ) ^ (p.1 * (digitsToNat q.1 : Int)))

/-- Rust `s.parse::<f64>()`, restricted to the finite decimal fragment:
optional sign, digits with optional fraction, optional `e`/`E` exponent.
The `inf`/`nan` spellings, which have no exact rational meaning, fall
outside the embedding and parse to `none`. -/
def parseF64Core (cs0 : List Char) : Option ℚ :=
  let s : ℚ × List Char :=
    match cs0 with
    | '+' :: r => (1, r)
    | '-' :: r => (-1, r)
    | r => (1, r)
  let ipp := takeDigits s.2
  match ipp.2 with
  | [] => if ipp.1.isEmpty then none else some (s.1 * (digitsToNat ipp.1 : ℚ))
  | '.' :: cs2 =>
    let fpp := takeDigits cs2
    if ipp.1.isEmpty ∧ fpp.1.isEmpty then none
    else
      let mant : ℚ := (digitsToNat ipp.1 : ℚ) + (digitsToNat fpp.1 : ℚ) / (10 : ℚ) ^ fpp.1.length
      match fpp.2 with
      | [] => some (s.1 * mant)
      | 'e' :: cs4 => parseExpTail (s.1 * mant) cs4
      | 'E' :: cs4 => parseExpTail (s.1 * mant) cs4
      | _ => none
  | 'e' :: cs4 => if ipp.1.isEmpty then none else parseExpTail (s.1 * (digitsToNat ipp.1 : ℚ)) cs4
  | 'E' :: cs4 => if ipp.1.isEmpty then none else parseExpTail (s.1 * (digitsToNat ipp.1 : ℚ)) cs4
  | _ => none

/-- Rust `total_distance_str.parse::<f64>()` over the exact fragment. -/
def parseF64 (s : Str) : Option ℚ := parseF64Core s

/-! ### Calendar conversion (chrono, fixed offset UTC+5:30) -/

/-- Year and month of the civil date `days` days after 1970-01-01
(Howard Hinnant's civil-from-days algorithm, specialised to
non-negative day counts, which is all a `u64` timestamp can reach). -/
def civilYM (z0 : Nat) : Nat × Nat :=
  let z := z0 + 719468
  let era := z / 146097
  let doe := z % 146097
  let yoe := (doe - doe / 1460 + doe / 36524 - doe / 146097) / 365
  let y := yoe + era * 400
  let doy := doe - (365 * yoe + yoe / 4 - yoe / 100)
  let mp := (5 * doy + 2) / 153
  let m := if mp < 10 then mp + 3 else mp - 9
  (if m ≤ 2 then y + 1 else y, m)

/-- The year component of the derived UTC+5:30 month of timestamp `ts`
(seconds since the UTC epoch). -/
def yearAt (ts : Nat) : Nat := (civilYM ((ts + 19800) / 86400)).1

/-- The month component (1–12) of the derived UTC+5:30 month. -/
def monthAt (ts : Nat) : Nat := (civilYM ((ts + 19800) / 86400)).2

/-- chrono `%m`: the month zero-padded to two digits. -/
def monthChars (mo : Nat) : List Char :=
  if mo < 10 then '0' :: natDigits mo else natDigits mo

/-- `datetime.format("%Y-%m")`: the UTC instant `ts` shifted by
`FixedOffset::east(5*3600+1800)` seconds and rendered `YYYY-MM`. -/
def rideMonthString (ts : Nat) : Str :=
  natDigits (yearAt ts) ++ '-' :: monthChars (monthAt ts)

/-! ### Rust `split` -/

/-- `str::split(c)` semantics: the empty string yields one empty piece,
adjacent separators yield empty pieces. -/
def splitCharAux (c : Char) : List Char → List Char → List (List Char)
  | [], acc => [acc.reverse]
  | x :: xs, acc =>
    if x = c then acc.reverse :: splitCharAux c xs []
    else splitCharAux c xs (x :: acc)

/-- Rust `s.split(c).collect::<Vec<_>>()`. -/
def splitOnChar (c : Char) (s : Str) : List Str := splitCharAux c s []

/-- `ride_month.split('-').next().unwrap()` followed by
`parse::<u32>().unwrap()`: the code's own re-extraction of the year
from the formatted month string.  `none` stands for the panic of either
`unwrap` (the first is unreachable: `split` always yields a piece). -/
def yearOfMonthString (s : Str) : Option Nat :=
  (splitOnChar '-' s).head?.bind parseU32

/-! ### Per-record processing -/

/-- `item.get("ride_type").and_then(|v| v.as_s().ok())`. -/
def typeTag (item : Item) : Option Str :=
  (List.lookup (str "ride_type") item).bind AttributeValue.asS

/-- `item.get("ride_start").and_then(as_n).and_then(parse::<u64>)`. -/
def startTs (item : Item) : Option Nat :=
  ((List.lookup (str "ride_start") item).bind AttributeValue.asN).bind parseU64

/-- `item.get("ride_stats").and_then(|v| v.as_m().ok())`. -/
def statsOf (item : Item) : Option (List (Str × AttributeValue)) :=
  (List.lookup (str "ride_stats") item).bind AttributeValue.asM

/-- `ride_stats_map.get("ride_distance").and_then(|v| v.as_s().ok())`. -/
def distStrOf (stats : List (Str × AttributeValue)) : Option Str :=
  (List.lookup (str "ride_distance") stats).bind AttributeValue.asS

/-- The fatal outcomes of one invocation: a failed upstream query, a
Rust `unwrap` panic on a malformed record, a failed downstream put. -/
inductive FatalErr where
  | queryError
  | crash
  | writeError
  deriving DecidableEq

/-- What one loop iteration does to the accumulator: nothing
(`continue` or a failed filter), or add `amount` at `key`. -/
inductive Contribution where
  | skip
  | add (key : Str × Str) (amount : ℚ)
  deriving DecidableEq

/-- A Rust `.unwrap()` on an `Option`: the value, or a panic that
aborts the whole invocation. -/
def getOrCrash {α : Type} : Option α → Except FatalErr α
  | none => .error .crash
  | some a => .ok a

/-- Lines 75–79 of `get_ride_data`: `if let Some(input_month) = &payload
.input_ride_month { if &ride_month != input_month { continue; } }` —
`true` when the record is to be skipped. -/
def monthFilterSkip (inputMonth : Option Str) (rideMonth : Str) : Bool :=
  match inputMonth with
  | some f => decide (rideMonth ≠ f)
  | none => false

/-- Lines 80–86: the `ride_stats` and `ride_distance` `unwrap`s, the
`parse::<f64>().unwrap_or(0.0)`, and the accumulator update expressed
as the contribution it makes. -/
def distancePart (imei : Str) (item : Item) (rideMonth : Str) :
    Except FatalErr Contribution :=
  (getOrCrash (statsOf item)).bind fun stats =>
    (getOrCrash (distStrOf stats)).bind fun distStr =>
      .ok (.add (imei, rideMonth) ((parseF64 distStr).getD 0))

/-- Lines 72–88: the 2023/2024 year window and, inside it, the optional
month filter guarding the distance extraction. -/
def yearMonthPart (imei : Str) (inputMonth : Option Str) (item : Item)
    (rideMonth : Str) (year : Nat) : Except FatalErr Contribution :=
  if year = 2024 ∨ year = 2023 then
    if monthFilterSkip inputMonth rideMonth then .ok .skip
    else distancePart imei item rideMonth
  else .ok .skip

/-- The body of the inner `for item in items.iter()` loop of
`get_ride_data`, for one `item` fetched for `imei` (lines 59–88):
type filter, timestamp `unwrap`, month derivation (the source binds
`ride_month` once; here `rideMonthString rideStart` is written at each
use), the year re-parse, then `yearMonthPart`. -/
def processItem (imei : Str) (inputMonth : Option Str) (item : Item) :
    Except FatalErr Contribution :=
  if (typeTag item).getD (str "NA") ≠ str "trip" then
    .ok .skip
  else
    (getOrCrash (startTs item)).bind fun rideStart =>
      (getOrCrash (yearOfMonthString (rideMonthString rideStart))).bind fun year =>
        yearMonthPart imei inputMonth item (rideMonthString rideStart) year

/-! ### The accumulator map -/

/-- `HashMap<(String, String), f64>`, modelled as an association list
with pairwise-distinct keys (insertion order fixes the unspecified
iteration order). -/
abbrev AggMap := List ((Str × Str) × ℚ)

/-- `imei_month_distance.entry(key).or_insert(0.0); *value += distance`. -/
def addToMap : AggMap → (Str × Str) → ℚ → AggMap
  | [], k, v => [(k, v)]
  | (k', v') :: rest, k, v =>
    if k' = k then (k', v' + v) :: rest
    else (k', v') :: addToMap rest k v

/-- Association-list lookup in the accumulator. -/
def lookupAgg : AggMap → (Str × Str) → Option ℚ
  | [], _ => none
  | (k', v') :: rest, k => if k' = k then some v' else lookupAgg rest k

/-- Total recorded for `k`, zero when the key is absent. -/
def totalOfD (m : AggMap) (k : Str × Str) : ℚ := (lookupAgg m k).getD 0

/-- Fold a contribution list into the accumulator. -/
def foldAdd (m : AggMap) (cs : List ((Str × Str) × ℚ)) : AggMap :=
  cs.foldl (fun m' p => addToMap m' p.1 p.2) m

/-- Sum of the amounts a contribution list assigns to key `k`. -/
def keySum : List ((Str × Str) × ℚ) → (Str × Str) → ℚ
  | [], _ => 0
  | (k', v) :: rest, k => (if k' = k then v else 0) + keySum rest k

/-! ### The invocation -/

/-- The Lambda event payload. -/
structure CustomEvent where
  imeis : Str
  input_ride_month : Option Str
  deriving DecidableEq

/-- One element of the success payload. -/
structure CustomOutput where
  imei : Str
  ride_month : Str
  total_distance : ℚ
  deriving DecidableEq

/-- The externally visible result of one invocation: the structured
validation error, a fatal abort, or the serialized aggregate list. -/
inductive RunResult where
  | validationError (msg : Str)
  | fatal (e : FatalErr)
  | success (out : List CustomOutput)
  deriving DecidableEq

/-- The store, as the invocation can observe it: what each query
returns, and whether each individual put succeeds. -/
structure World where
  query : Str → Except Unit (List Item)
  putOk : Str → Str → ℚ → Bool

/-- The invocation's result plus its interaction log: queries attempted
(in order, a failing one included) and writes committed (in order). -/
structure Trace where
  result : RunResult
  queried : List Str
  written : List (Str × Str × ℚ)
  deriving DecidableEq

/-- The inner loop over one identifier's fetched items, threading the
accumulator; the first `unwrap` panic aborts. -/
def aggItems (imei : Str) (inputMonth : Option Str) :
    List Item → AggMap → Except FatalErr AggMap
  | [], m => .ok m
  | it :: its, m =>
    match processItem imei inputMonth it with
    | .error e => .error e
    | .ok .skip => aggItems imei inputMonth its m
    | .ok (.add k v) => aggItems imei inputMonth its (addToMap m k v)

/-- The outer loop over the identifier tokens: query, then process the
items; a query error or a panic aborts, keeping the list of identifiers
for which a query was attempted. -/
def aggRun (query : Str → Except Unit (List Item)) (inputMonth : Option Str) :
    List Str → AggMap → List Str × Except FatalErr AggMap
  | [], m => ([], .ok m)
  | t :: ts, m =>
    match query t with
    | .error _ => ([t], .error .queryError)
    | .ok items =>
      match aggItems t inputMonth items m with
      | .error e => ([t], .error e)
      | .ok m' =>
        let r := aggRun query inputMonth ts m'
        (t :: r.1, r.2)

/-- The write loop: one `put_item` per accumulator entry, aborting at
the first failure; returns the writes committed and whether all
succeeded. -/
def doWrites (putOk : Str → Str → ℚ → Bool) :
    AggMap → List (Str × Str × ℚ) × Bool
  | [] => ([], true)
  | ((i, mo), d) :: rest =>
    if putOk i mo d then
      let r := doWrites putOk rest
      ((i, mo, d) :: r.1, r.2)
    else ([], false)

/-- The tail of `get_ride_data` after the aggregation loop: either
surface the fatal error, or run the write loop and serialize the
accumulator into the response payload. -/
def finishRun (putOk : Str → Str → ℚ → Bool) (r : List Str × Except FatalErr AggMap) :
    Trace :=
  match r.2 with
  | .error err => ⟨.fatal err, r.1, []⟩
  | .ok m =>
    let wr := doWrites putOk m
    if wr.2 then
      ⟨.success (m.map fun p => ⟨p.1.1, p.1.2, p.2⟩), r.1, wr.1⟩
    else
      ⟨.fatal .writeError, r.1, wr.1⟩

/-- `get_ride_data`: empty-string validation, comma split, the
query/filter/accumulate pass, the write-back pass, and the serialized
output. -/
def getRideData (w : World) (e : CustomEvent) : Trace :=
  if e.imeis.isEmpty then
    ⟨.validationError (str "IMEI cannot be empty"), [], []⟩
  else
    finishRun w.putOk (aggRun w.query e.input_ride_month (splitOnChar ',' e.imeis) [])

/-! ### Digit and parsing lemmas -/

theorem digitVal_digitChar {d : Nat} (h : d < 10) : digitVal (digitChar d) = some d := by
  interval_cases d <;> rfl

theorem digitVal_digitChar_isSome (d : Nat) : (digitVal (digitChar d)).isSome := by
  unfold digitChar
  repeat' split
  all_goals decide

theorem parseDigitsAcc_append (l1 l2 : List Char) (acc : Nat) :
    parseDigitsAcc acc (l1 ++ l2) =
      match parseDigitsAcc acc l1 with
      | none => none
      | some a => parseDigitsAcc a l2 := by
  induction l1 generalizing acc with
  | nil => rfl
  | cons c cs ih =>
    simp only [List.cons_append, parseDigitsAcc]
    cases digitVal c with
    | none => rfl
    | some d => exact ih (acc * 10 + d)

/-- With enough fuel, the digit rendering is non-empty, consists of
digit characters, and parses back to the printed value. -/
theorem natDigitsAux_spec :
    ∀ f n, n < 10 ^ (f + 1) →
      natDigitsAux (f + 1) n ≠ [] ∧
      (∀ c ∈ natDigitsAux (f + 1) n, (digitVal c).isSome) ∧
      ∀ acc, parseDigitsAcc acc (natDigitsAux (f + 1) n) =
        some (acc * 10 ^ (natDigitsAux (f + 1) n).length + n) := by
  intro f
  induction f with
  | zero =>
    intro n hn
    have h10 : n < 10 := by simpa using hn
    have hstep : natDigitsAux (0 + 1) n =
        if n < 10 then [digitChar n] else natDigitsAux 0 (n / 10) ++ [digitChar (n % 10)] := rfl
    rw [hstep, if_pos h10]
    refine ⟨by simp, ?_, ?_⟩
    · intro c hc
      simp only [List.mem_singleton] at hc
      subst hc
      exact digitVal_digitChar_isSome n
    · intro acc
      simp only [parseDigitsAcc, digitVal_digitChar h10, List.length_singleton, pow_one]
  | succ f ih =>
    intro n hn
    have hstep : natDigitsAux (f + 1 + 1) n =
        if n < 10 then [digitChar n]
        else natDigitsAux (f + 1) (n / 10) ++ [digitChar (n % 10)] := rfl
    by_cases h10 : n < 10
    · rw [hstep, if_pos h10]
      refine ⟨by simp, ?_, ?_⟩
      · intro c hc
        simp only [List.mem_singleton] at hc
        subst hc
        exact digitVal_digitChar_isSome n
      · intro acc
        simp only [parseDigitsAcc, digitVal_digitChar h10, List.length_singleton, pow_one]
    · have hdiv : n / 10 < 10 ^ (f + 1) := by
        rw [Nat.div_lt_iff_lt_mul (by omega)]
        calc n < 10 ^ (f + 1 + 1) := hn
          _ = 10 ^ (f + 1) * 10 := by rw [pow_succ]
      obtain ⟨hne, hmem, hparse⟩ := ih (n / 10) hdiv
      rw [hstep, if_neg h10]
      refine ⟨by simp [hne], ?_, ?_⟩
      · intro c hc
        rcases List.mem_append.mp hc with h1 | h2
        · exact hmem c h1
        · simp only [List.mem_singleton] at h2
          subst h2
          exact digitVal_digitChar_isSome (n % 10)
      · intro acc
        rw [parseDigitsAcc_append, hparse acc]
        simp only [parseDigitsAcc, digitVal_digitChar (Nat.mod_lt n (by omega)),
          List.length_append, List.length_singleton, pow_succ]
        congr 1
        rw [Nat.add_mul, Nat.mul_assoc, Nat.add_assoc]
        congr 1
        omega

theorem self_lt_ten_pow (n : Nat) : n < 10 ^ (n + 1) := by
  calc n < 10 ^ n := Nat.lt_pow_self (by omega) n
    _ ≤ 10 ^ (n + 1) := Nat.pow_le_pow_right (by omega) (by omega)

theorem natDigits_ne_nil (n : Nat) : natDigits n ≠ [] :=
  (natDigitsAux_spec n n (self_lt_ten_pow n)).1

theorem mem_natDigits (n : Nat) : ∀ c ∈ natDigits n, (digitVal c).isSome :=
  (natDigitsAux_spec n n (self_lt_ten_pow n)).2.1

theorem parseDigitsAcc_natDigits (n : Nat) :
    ∀ acc, parseDigitsAcc acc (natDigits n) =
      some (acc * 10 ^ (natDigits n).length + n) :=
  (natDigitsAux_spec n n (self_lt_ten_pow n)).2.2

theorem parseNatCore_natDigits (n : Nat) : parseNatCore (natDigits n) = some n := by
  cases h : natDigits n with
  | nil => exact absurd h (natDigits_ne_nil n)
  | cons c cs =>
    have hacc := parseDigitsAcc_natDigits n 0
    rw [h] at hacc
    simpa [parseNatCore] using hacc

theorem stripPlus_of_digits {l : List Char} (h : ∀ c ∈ l, (digitVal c).isSome) :
    stripPlus l = l := by
  cases l with
  | nil => rfl
  | cons c cs =>
    unfold stripPlus
    split
    · rename_i heq
      rw [List.cons.injEq] at heq
      have hc := h c (List.mem_cons_self c cs)
      rw [heq.1] at hc
      simp [digitVal] at hc
    · rfl

/-! ### Split lemmas -/

theorem splitCharAux_no_sep {c : Char} :
    ∀ {l : List Char}, (∀ x ∈ l, x ≠ c) → ∀ acc,
      splitCharAux c l acc = [acc.reverse ++ l]
  | [], _, acc => by simp [splitCharAux]
  | x :: xs, h, acc => by
    have hx : x ≠ c := h x (List.mem_cons_self x xs)
    have ih := splitCharAux_no_sep (fun y hy => h y (List.mem_cons_of_mem x hy)) (x :: acc)
    simp only [splitCharAux, if_neg hx, ih, List.reverse_cons, List.append_assoc,
      List.singleton_append]

theorem splitCharAux_sep {c : Char} :
    ∀ {l1 : List Char}, (∀ x ∈ l1, x ≠ c) → ∀ (l2 acc : List Char),
      splitCharAux c (l1 ++ c :: l2) acc = (acc.reverse ++ l1) :: splitCharAux c l2 []
  | [], _, l2, acc => by simp [splitCharAux]
  | x :: xs, h, l2, acc => by
    have hx : x ≠ c := h x (List.mem_cons_self x xs)
    have ih := splitCharAux_sep (fun y hy => h y (List.mem_cons_of_mem x hy)) l2 (x :: acc)
    simp only [List.cons_append, List.append_eq, splitCharAux, if_neg hx, ih,
      List.reverse_cons, List.append_assoc, List.singleton_append, List.nil_append]

/-- The `parse::<u32>()` of a printed number recovers it (subject to
the `u32` bound). -/
theorem parseU32_natDigits (n : Nat) :
    parseU32 (natDigits n) = if n < 2 ^ 32 then some n else none := by
  unfold parseU32 parseRustNat
  rw [stripPlus_of_digits (mem_natDigits n), parseNatCore_natDigits, Option.some_bind]

/-- The code's year re-extraction from the formatted month string
recovers exactly the year component of the civil conversion (subject to
the `u32` bound of the `parse`). -/
theorem yearOfMonthString_rideMonthString (ts : Nat) :
    yearOfMonthString (rideMonthString ts) =
      if yearAt ts < 2 ^ 32 then some (yearAt ts) else none := by
  have hdig := mem_natDigits (yearAt ts)
  have hne : ∀ x ∈ natDigits (yearAt ts), x ≠ '-' := by
    intro x hx he
    have hds := hdig x hx
    rw [he] at hds
    simp [digitVal] at hds
  have hsplit : splitOnChar '-' (rideMonthString ts) =
      natDigits (yearAt ts) :: splitCharAux '-' (monthChars (monthAt ts)) [] := by
    unfold rideMonthString splitOnChar
    rw [splitCharAux_sep hne (monthChars (monthAt ts)) []]
    rw [List.reverse_nil, List.nil_append]
  unfold yearOfMonthString
  rw [hsplit, List.head?_cons, Option.some_bind, parseU32_natDigits]

/-! ### processItem case lemmas -/

theorem processItem_skip_of_type {item : Item} (imei : Str) (inputMonth : Option Str)
    (h : typeTag item ≠ some (str "trip")) :
    processItem imei inputMonth item = .ok .skip := by
  have hcond : (typeTag item).getD (str "NA") ≠ str "trip" := by
    cases ht : typeTag item with
    | none => decide
    | some s =>
      intro he
      exact h (by rw [ht, Option.getD_some] at *; rw [he])
  unfold processItem
  rw [if_pos hcond]

theorem processItem_crash_of_start {item : Item} (imei : Str) (inputMonth : Option Str)
    (ht : typeTag item = some (str "trip")) (hs : startTs item = none) :
    processItem imei inputMonth item = .error .crash := by
  have hcond : ¬ (typeTag item).getD (str "NA") ≠ str "trip" := by
    rw [ht, Option.getD_some]
    simp
  unfold processItem
  rw [if_neg hcond, hs]
  rfl

theorem getOrCrash_some_bind {α β : Type} (a : α) (f : α → Except FatalErr β) :
    (getOrCrash (some a)).bind f = f a := rfl

/-- Reduction of `processItem` on a `"trip"` record with a parsed
timestamp whose derived year is below the `u32` bound: what remains is
the year window, the month filter, and the statistics extraction. -/
theorem processItem_trip_eq {item : Item} (imei : Str) (inputMonth : Option Str) (t : Nat)
    (ht : typeTag item = some (str "trip")) (hs : startTs item = some t)
    (hy : yearAt t < 2 ^ 32) :
    processItem imei inputMonth item =
      yearMonthPart imei inputMonth item (rideMonthString t) (yearAt t) := by
  have hcond : ¬ (typeTag item).getD (str "NA") ≠ str "trip" := by
    rw [ht, Option.getD_some]
    simp
  unfold processItem
  rw [if_neg hcond, hs, getOrCrash_some_bind]
  rw [yearOfMonthString_rideMonthString t, if_pos hy, getOrCrash_some_bind]

/-- On a `"trip"` record whose derived year overflows the `u32` parse,
the year `unwrap` panics. -/
theorem processItem_crash_of_yearbound {item : Item} (imei : Str) (inputMonth : Option Str)
    (t : Nat) (ht : typeTag item = some (str "trip")) (hs : startTs item = some t)
    (hy : ¬ yearAt t < 2 ^ 32) :
    processItem imei inputMonth item = .error .crash := by
  have hcond : ¬ (typeTag item).getD (str "NA") ≠ str "trip" := by
    rw [ht, Option.getD_some]
    simp
  unfold processItem
  rw [if_neg hcond, hs, getOrCrash_some_bind]
  rw [yearOfMonthString_rideMonthString t, if_neg hy]
  rfl

theorem getOrCrash_none_bind {α β : Type} (f : α → Except FatalErr β) :
    (getOrCrash (none : Option α)).bind f = .error .crash := rfl

theorem monthFilterSkip_eq_false {inputMonth : Option Str} {rideMonth : Str}
    (h : inputMonth = none ∨ inputMonth = some rideMonth) :
    monthFilterSkip inputMonth rideMonth = false := by
  rcases h with h | h <;> rw [h] <;> simp [monthFilterSkip]

theorem yearMonthPart_skip_of_year (imei : Str) (inputMonth : Option Str) (item : Item)
    (rideMonth : Str) (year : Nat) (h24 : year ≠ 2024) (h23 : year ≠ 2023) :
    yearMonthPart imei inputMonth item rideMonth year = .ok .skip := by
  unfold yearMonthPart
  rw [if_neg (by tauto)]

theorem yearMonthPart_eq_distancePart (imei : Str) (inputMonth : Option Str) (item : Item)
    (rideMonth : Str) (year : Nat) (hy : year = 2024 ∨ year = 2023)
    (hm : monthFilterSkip inputMonth rideMonth = false) :
    yearMonthPart imei inputMonth item rideMonth year = distancePart imei item rideMonth := by
  unfold yearMonthPart
  rw [if_pos hy, hm]
  rfl

theorem distancePart_crash_of_stats {item : Item} (imei : Str) (rideMonth : Str)
    (h : statsOf item = none) :
    distancePart imei item rideMonth = .error .crash := by
  unfold distancePart
  rw [h, getOrCrash_none_bind]

theorem distancePart_crash_of_dist {item : Item} {stats : List (Str × AttributeValue)}
    (imei : Str) (rideMonth : Str)
    (hst : statsOf item = some stats) (hd : distStrOf stats = none) :
    distancePart imei item rideMonth = .error .crash := by
  unfold distancePart
  rw [hst, getOrCrash_some_bind, hd, getOrCrash_none_bind]

theorem distancePart_add {item : Item} {stats : List (Str × AttributeValue)} {ds : Str}
    (imei : Str) (rideMonth : Str)
    (hst : statsOf item = some stats) (hd : distStrOf stats = some ds) :
    distancePart imei item rideMonth =
      .ok (.add (imei, rideMonth) ((parseF64 ds).getD 0)) := by
  unfold distancePart
  rw [hst, getOrCrash_some_bind, hd, getOrCrash_some_bind]

/-- Inversion: a `yearMonthPart` contribution carries the processed
identifier and derived month as its key, and matches the filter. -/
theorem yearMonthPart_add_inv {imei : Str} {inputMonth : Option Str} {item : Item}
    {rideMonth : Str} {year : Nat} {k : Str × Str} {v : ℚ}
    (h : yearMonthPart imei inputMonth item rideMonth year = .ok (.add k v)) :
    k = (imei, rideMonth) ∧ ∀ f, inputMonth = some f → rideMonth = f := by
  unfold yearMonthPart at h
  by_cases hy : year = 2024 ∨ year = 2023
  · rw [if_pos hy] at h
    by_cases hm : monthFilterSkip inputMonth rideMonth
    · rw [if_pos hm] at h
      simp at h
    · rw [if_neg hm] at h
      constructor
      · unfold distancePart at h
        cases hst : statsOf item with
        | none => rw [hst, getOrCrash_none_bind] at h; exact Except.noConfusion h
        | some stats =>
          rw [hst, getOrCrash_some_bind] at h
          cases hds : distStrOf stats with
          | none => rw [hds, getOrCrash_none_bind] at h; exact Except.noConfusion h
          | some ds =>
            rw [hds, getOrCrash_some_bind] at h
            have h2 := Except.ok.inj h
            have h3 := congrArg (fun c => match c with
              | Contribution.add k _ => k
              | Contribution.skip => k) h2
            simpa using h3.symm
      · intro f hf
        subst hf
        by_contra hne
        exact hm (by simp [monthFilterSkip, hne])
  · rw [if_neg hy] at h
    simp at h

/-! ### Claim theorems: per-record filters (C4, C5, C6) -/

/-- C6: a fetched record whose type tag is not exactly the string
"trip" — including a missing tag or a non-string type attribute — is
skipped outright: `processItem` returns `skip` whatever the record's
other fields, the identifier, or the month filter are, so the record
contributes to no aggregate and nothing else of it is inspected.  The
comparison is with the exact, case-sensitive string "trip". -/
theorem claimC6_type_filter (imei : Str) (inputMonth : Option Str) (item : Item)
    (h : typeTag item ≠ some (str "trip")) :
    processItem imei inputMonth item = .ok .skip :=
  processItem_skip_of_type imei inputMonth h

/-- C6 witness: a record tagged "Trip" (wrong case, with a distance
present) is skipped. -/
theorem claimC6_witness :
    processItem (str "111") none
      [(str "ride_type", .S (str "Trip")),
       (str "ride_start", .N (str "1700000000")),
       (str "ride_stats", .M [(str "ride_distance", .S (str "12.5"))])] = .ok .skip :=
  claimC6_type_filter (str "111") none _ (by decide)

/-- C4: a fetched record whose derived UTC+5:30 month has a year other
than 2023 or 2024 never contributes to any aggregate: `processItem`
never returns an `add` for it, regardless of its type tag, the month
filter, or its distance value. -/
theorem claimC4_year_window (imei : Str) (inputMonth : Option Str) (item : Item)
    (t : Nat) (hs : startTs item = some t)
    (h23 : yearAt t ≠ 2023) (h24 : yearAt t ≠ 2024) :
    ∀ (k : Str × Str) (v : ℚ), processItem imei inputMonth item ≠ .ok (.add k v) := by
  intro k v hadd
  by_cases ht : typeTag item = some (str "trip")
  · by_cases hy : yearAt t < 2 ^ 32
    · rw [processItem_trip_eq imei inputMonth t ht hs hy,
        yearMonthPart_skip_of_year imei inputMonth item (rideMonthString t) (yearAt t)
          h24 h23] at hadd
      simp at hadd
    · rw [processItem_crash_of_yearbound imei inputMonth t ht hs hy] at hadd
      exact Except.noConfusion hadd
  · rw [processItem_skip_of_type imei inputMonth ht] at hadd
    simp at hadd

/-- C4 witness: a trip record of September 2001 (timestamp 1000000000)
with a parseable distance contributes nothing. -/
theorem claimC4_witness :
    processItem (str "111") none
      [(str "ride_type", .S (str "trip")),
       (str "ride_start", .N (str "1000000000")),
       (str "ride_stats", .M [(str "ride_distance", .S (str "12.5"))])] ≠
      .ok (.add (str "111", str "2001-09") (25 / 2)) :=
  claimC4_year_window (str "111") none _ 1000000000 (by decide) (by decide) (by decide)
    (str "111", str "2001-09") (25 / 2)

/-- C5: when an explicit month filter is supplied, every contribution's
key carries exactly the filter month: a record can only add to the
aggregate of the requested month, so records of any other derived month
are dropped even when otherwise qualifying. -/
theorem claimC5_month_filter (imei f : Str) (item : Item) (k : Str × Str) (v : ℚ)
    (h : processItem imei (some f) item = .ok (.add k v)) : k.2 = f := by
  by_cases ht : typeTag item = some (str "trip")
  · cases hs : startTs item with
    | none =>
      rw [processItem_crash_of_start imei (some f) ht hs] at h
      exact Except.noConfusion h
    | some t =>
      by_cases hy : yearAt t < 2 ^ 32
      · rw [processItem_trip_eq imei (some f) t ht hs hy] at h
        obtain ⟨hk, hf⟩ := yearMonthPart_add_inv h
        rw [hk, hf f rfl]
      · rw [processItem_crash_of_yearbound imei (some f) t ht hs hy] at h
        exact Except.noConfusion h
  · rw [processItem_skip_of_type imei (some f) ht] at h
    simp at h

/-- A concrete November-2023 trip record with distance "12.5", used by
several witnesses. -/
def itemNov : Item :=
  [(str "ride_type", .S (str "trip")),
   (str "ride_start", .N (str "1700000000")),
   (str "ride_stats", .M [(str "ride_distance", .S (str "12.5"))])]

/-- C5 witness: under the filter "2023-11", the November 2023 record's
contribution is keyed by exactly that month. -/
theorem claimC5_witness :
    (processItem (str "111") (some (str "2023-11")) itemNov =
      .ok (.add (str "111", str "2023-11") (25 / 2))) ∧
    (str "111", str "2023-11").2 = str "2023-11" := by
  constructor
  · with_unfolding_all rfl
  · exact claimC5_month_filter (str "111") (str "2023-11") itemNov
      (str "111", str "2023-11") (25 / 2) (by with_unfolding_all rfl)

/-! ### Claim C2: fatal unwraps versus the zero default -/

/-- C2: for a record that passes the type filter (and, where they are
defined, the year window and month filter): a missing or unparseable
start timestamp aborts the whole invocation (`unwrap` panic), and for a
record passing all filters a missing statistics structure or missing
distance string also aborts — whereas a distance string that is present
but fails to parse as a float does not abort and contributes exactly
`0.0` at the record's (identifier, month) key. -/
theorem claimC2_malformed (imei : Str) (inputMonth : Option Str) (item : Item) :
    (typeTag item = some (str "trip") → startTs item = none →
      processItem imei inputMonth item = .error .crash) ∧
    (∀ t, typeTag item = some (str "trip") → startTs item = some t →
      (yearAt t = 2023 ∨ yearAt t = 2024) →
      (inputMonth = none ∨ inputMonth = some (rideMonthString t)) →
      (statsOf item = none → processItem imei inputMonth item = .error .crash) ∧
      (∀ stats, statsOf item = some stats → distStrOf stats = none →
        processItem imei inputMonth item = .error .crash) ∧
      (∀ stats ds, statsOf item = some stats → distStrOf stats = some ds →
        parseF64 ds = none →
        processItem imei inputMonth item = .ok (.add (imei, rideMonthString t) 0))) := by
  constructor
  · intro ht hs
    exact processItem_crash_of_start imei inputMonth ht hs
  · intro t ht hs hyw hm
    have hy : yearAt t < 2 ^ 32 := by rcases hyw with h | h <;> omega
    have hbase := processItem_trip_eq imei inputMonth t ht hs hy
    have hymp := yearMonthPart_eq_distancePart imei inputMonth item (rideMonthString t)
      (yearAt t) (by tauto) (monthFilterSkip_eq_false hm)
    refine ⟨?_, ?_, ?_⟩
    · intro hst
      rw [hbase, hymp, distancePart_crash_of_stats imei (rideMonthString t) hst]
    · intro stats hst hd
      rw [hbase, hymp, distancePart_crash_of_dist imei (rideMonthString t) hst hd]
    · intro stats ds hst hd hpf
      rw [hbase, hymp, distancePart_add imei (rideMonthString t) hst hd, hpf,
        Option.getD_none]

/-- C2 witness: the three malformed shapes crash and the unparseable
distance "abc" yields a zero contribution (November 2023 record). -/
theorem claimC2_witness :
    (processItem (str "111") none [(str "ride_type", .S (str "trip"))] = .error .crash) ∧
    (processItem (str "111") none
      [(str "ride_type", .S (str "trip")), (str "ride_start", .N (str "1700000000"))] =
        .error .crash) ∧
    (processItem (str "111") none
      [(str "ride_type", .S (str "trip")), (str "ride_start", .N (str "1700000000")),
       (str "ride_stats", .M [])] = .error .crash) ∧
    (processItem (str "111") none
      [(str "ride_type", .S (str "trip")), (str "ride_start", .N (str "1700000000")),
       (str "ride_stats", .M [(str "ride_distance", .S (str "abc"))])] =
        .ok (.add (str "111", rideMonthString 1700000000) 0)) := by
  refine ⟨?_, ?_, ?_, ?_⟩
  · exact (claimC2_malformed (str "111") none _).1 (by decide) (by decide)
  · exact ((claimC2_malformed (str "111") none _).2 1700000000 (by decide) (by decide)
      (by decide) (.inl rfl)).1 rfl
  · exact (((claimC2_malformed (str "111") none _).2 1700000000 (by decide) (by decide)
      (by decide) (.inl rfl)).2.1) [] rfl rfl
  · exact (((claimC2_malformed (str "111") none _).2 1700000000 (by decide) (by decide)
      (by decide) (.inl rfl)).2.2) [(str "ride_distance", .S (str "abc"))] (str "abc")
      rfl rfl (by decide)

/-! ### Contribution collection and factoring of the loops -/

/-- The contributions the inner loop makes for one identifier's items,
in order (or the first fatal error). -/
def processItems (imei : Str) (inputMonth : Option Str) :
    List Item → Except FatalErr (List ((Str × Str) × ℚ))
  | [] => .ok []
  | it :: its =>
    match processItem imei inputMonth it with
    | .error e => .error e
    | .ok .skip => processItems imei inputMonth its
    | .ok (.add k v) =>
      match processItems imei inputMonth its with
      | .error e => .error e
      | .ok cs => .ok ((k, v) :: cs)

/-- All contributions of the whole run, token by token. -/
def allContribs (query : Str → Except Unit (List Item)) (inputMonth : Option Str) :
    List Str → Except FatalErr (List ((Str × Str) × ℚ))
  | [] => .ok []
  | t :: ts =>
    match query t with
    | .error _ => .error .queryError
    | .ok items =>
      match processItems t inputMonth items with
      | .error e => .error e
      | .ok cs =>
        match allContribs query inputMonth ts with
        | .error e => .error e
        | .ok cs2 => .ok (cs ++ cs2)

theorem exceptMap_ok {e a b : Type} (f : a → b) (x : a) :
    Except.map f (.ok x : Except e a) = .ok (f x) := rfl

/-- The interleaved inner loop equals collecting the contributions and
folding them into the accumulator afterwards. -/
theorem aggItems_eq_foldAdd (imei : Str) (inputMonth : Option Str) :
    ∀ (its : List Item) (m : AggMap),
      aggItems imei inputMonth its m = (processItems imei inputMonth its).map (foldAdd m)
  | [], m => rfl
  | it :: its, m => by
    unfold aggItems processItems
    cases processItem imei inputMonth it with
    | error e => rfl
    | ok c =>
      cases c with
      | skip =>
        dsimp only
        exact aggItems_eq_foldAdd imei inputMonth its m
      | add k v =>
        dsimp only
        rw [aggItems_eq_foldAdd imei inputMonth its (addToMap m k v)]
        cases processItems imei inputMonth its with
        | error e => rfl
        | ok cs => rfl

/-- The outer loop equals collecting all contributions and folding. -/
theorem aggRun_eq_foldAdd (query : Str → Except Unit (List Item)) (inputMonth : Option Str) :
    ∀ (toks : List Str) (m : AggMap),
      (aggRun query inputMonth toks m).2 = (allContribs query inputMonth toks).map (foldAdd m)
  | [], m => rfl
  | t :: ts, m => by
    unfold aggRun allContribs
    cases query t with
    | error e => rfl
    | ok items =>
      dsimp only
      rw [aggItems_eq_foldAdd t inputMonth items m]
      cases processItems t inputMonth items with
      | error e => rfl
      | ok cs =>
        rw [exceptMap_ok]
        dsimp only
        rw [aggRun_eq_foldAdd query inputMonth ts (foldAdd m cs)]
        cases allContribs query inputMonth ts with
        | error e => rfl
        | ok cs2 =>
          rw [exceptMap_ok, exceptMap_ok]
          rw [show foldAdd (foldAdd m cs) cs2 = foldAdd m (cs ++ cs2) from
            (List.foldl_append _ _ _ _).symm]

/-- One step of the outer loop when the query fails. -/
theorem aggRun_cons_qerr (query : Str → Except Unit (List Item)) (inputMonth : Option Str)
    (t : Str) (ts : List Str) (m0 : AggMap) (e : Unit) (hq : query t = .error e) :
    aggRun query inputMonth (t :: ts) m0 = ([t], .error .queryError) := by
  unfold aggRun
  rw [hq]

/-- One step of the outer loop when the query succeeds but an item
panics. -/
theorem aggRun_cons_crash (query : Str → Except Unit (List Item)) (inputMonth : Option Str)
    (t : Str) (ts : List Str) (m0 : AggMap) (items : List Item) (e : FatalErr)
    (hq : query t = .ok items) (ha : aggItems t inputMonth items m0 = .error e) :
    aggRun query inputMonth (t :: ts) m0 = ([t], .error e) := by
  unfold aggRun
  rw [hq]
  dsimp only
  rw [ha]

/-- One step of the outer loop when query and item processing succeed. -/
theorem aggRun_cons_ok (query : Str → Except Unit (List Item)) (inputMonth : Option Str)
    (t : Str) (ts : List Str) (m0 : AggMap) (items : List Item) (m2 : AggMap)
    (hq : query t = .ok items) (ha : aggItems t inputMonth items m0 = .ok m2) :
    aggRun query inputMonth (t :: ts) m0 =
      (t :: (aggRun query inputMonth ts m2).1, (aggRun query inputMonth ts m2).2) := by
  conv_lhs => unfold aggRun
  rw [hq]
  dsimp only
  rw [ha]

/-- On a run that aggregates successfully, every token was queried. -/
theorem aggRun_queried_of_ok (query : Str → Except Unit (List Item))
    (inputMonth : Option Str) :
    ∀ (toks : List Str) (m m2 : AggMap),
      (aggRun query inputMonth toks m).2 = .ok m2 →
      (aggRun query inputMonth toks m).1 = toks
  | [], _, _, _ => rfl
  | t :: ts, m, m2, h => by
    cases hq : query t with
    | error e =>
      rw [aggRun_cons_qerr query inputMonth t ts m e hq] at h
      exact absurd h (by simp)
    | ok items =>
      cases ha : aggItems t inputMonth items m with
      | error e =>
        rw [aggRun_cons_crash query inputMonth t ts m items e hq ha] at h
        exact absurd h (by simp)
      | ok m1 =>
        rw [aggRun_cons_ok query inputMonth t ts m items m1 hq ha] at h ⊢
        dsimp only at h ⊢
        rw [aggRun_queried_of_ok query inputMonth ts m1 m2 h]

/-- Splitting `aggRun` at a list split, when the prefix succeeds. -/
theorem aggRun_append (query : Str → Except Unit (List Item)) (inputMonth : Option Str) :
    ∀ (pre rest : List Str) (m0 : AggMap) (qs : List Str) (m1 : AggMap),
      aggRun query inputMonth pre m0 = (qs, .ok m1) →
      aggRun query inputMonth (pre ++ rest) m0 =
        (qs ++ (aggRun query inputMonth rest m1).1, (aggRun query inputMonth rest m1).2)
  | [], rest, m0, qs, m1, h => by
    have h1 : qs = [] := (congrArg Prod.fst h).symm
    have h2 : m1 = m0 := (Except.ok.inj (congrArg Prod.snd h)).symm
    subst h1
    subst h2
    simp
  | t :: pre, rest, m0, qs, m1, h => by
    cases hq : query t with
    | error e =>
      rw [aggRun_cons_qerr query inputMonth t pre m0 e hq] at h
      exact absurd (congrArg Prod.snd h) (by simp)
    | ok items =>
      cases ha : aggItems t inputMonth items m0 with
      | error e =>
        rw [aggRun_cons_crash query inputMonth t pre m0 items e hq ha] at h
        exact absurd (congrArg Prod.snd h) (by simp)
      | ok m2 =>
        rw [aggRun_cons_ok query inputMonth t pre m0 items m2 hq ha] at h
        have h1 : t :: (aggRun query inputMonth pre m2).1 = qs := congrArg Prod.fst h
        have h2 : (aggRun query inputMonth pre m2).2 = .ok m1 := congrArg Prod.snd h
        have hr := aggRun_append query inputMonth pre rest m2
          (aggRun query inputMonth pre m2).1 m1 (by rw [← h2])
        rw [List.cons_append,
          aggRun_cons_ok query inputMonth t (pre ++ rest) m0 items m2 hq ha, hr, ← h1]
        simp

/-! ### Accumulator map lemmas -/

theorem mem_keys_addToMap :
    ∀ (m : AggMap) (k : Str × Str) (v : ℚ) (a : Str × Str),
      a ∈ (addToMap m k v).map Prod.fst ↔ a ∈ m.map Prod.fst ∨ a = k
  | [], k, v, a => by simp [addToMap]
  | (k', v') :: rest, k, v, a => by
    unfold addToMap
    by_cases hk : k' = k
    · rw [if_pos hk]
      subst hk
      simp only [List.map_cons, List.mem_cons]
      tauto
    · rw [if_neg hk]
      simp only [List.map_cons, List.mem_cons, mem_keys_addToMap rest k v a]
      tauto

theorem nodup_keys_addToMap :
    ∀ (m : AggMap) (k : Str × Str) (v : ℚ),
      (m.map Prod.fst).Nodup → ((addToMap m k v).map Prod.fst).Nodup
  | [], k, v, _ => by simp [addToMap]
  | (k', v') :: rest, k, v, h => by
    simp only [List.map_cons, List.nodup_cons] at h
    unfold addToMap
    by_cases hk : k' = k
    · rw [if_pos hk]
      simp only [List.map_cons, List.nodup_cons]
      exact h
    · rw [if_neg hk]
      simp only [List.map_cons, List.nodup_cons]
      refine ⟨?_, nodup_keys_addToMap rest k v h.2⟩
      intro hmem
      rcases (mem_keys_addToMap rest k v k').mp hmem with h1 | h1
      · exact h.1 h1
      · exact hk h1

theorem lookupAgg_addToMap :
    ∀ (m : AggMap) (k : Str × Str) (v : ℚ) (a : Str × Str),
      lookupAgg (addToMap m k v) a =
        if a = k then some (totalOfD m k + v) else lookupAgg m a
  | [], k, v, a => by
    by_cases ha : a = k
    · subst ha
      simp [addToMap, lookupAgg, totalOfD]
    · simp [addToMap, lookupAgg, ha, Ne.symm ha]
  | (k', v') :: rest, k, v, a => by
    by_cases hk : k' = k
    · subst hk
      by_cases ha : a = k'
      · subst ha
        simp [addToMap, lookupAgg, totalOfD]
      · simp [addToMap, lookupAgg, ha, Ne.symm ha]
    · by_cases ha : a = k'
      · have h1 : ¬ a = k := fun h => hk (ha.symm.trans h)
        simp [addToMap, lookupAgg, hk, h1, ha.symm]
      · simp [addToMap, lookupAgg, totalOfD, hk, ha, Ne.symm ha,
          lookupAgg_addToMap rest k v a]

/-- Folding contributions adds exactly their per-key sums. -/
theorem totalOfD_foldAdd :
    ∀ (cs : List ((Str × Str) × ℚ)) (m : AggMap) (a : Str × Str),
      totalOfD (foldAdd m cs) a = totalOfD m a + keySum cs a
  | [], m, a => by simp [foldAdd, keySum]
  | (k, v) :: cs, m, a => by
    have hstep : foldAdd m ((k, v) :: cs) = foldAdd (addToMap m k v) cs := rfl
    rw [hstep, totalOfD_foldAdd cs (addToMap m k v) a]
    have hks : keySum ((k, v) :: cs) a = (if k = a then v else 0) + keySum cs a := rfl
    rw [hks]
    have haddm : totalOfD (addToMap m k v) a =
        totalOfD m a + (if k = a then v else 0) := by
      unfold totalOfD
      rw [lookupAgg_addToMap m k v a]
      by_cases ha : a = k
      · subst ha
        simp [totalOfD]
      · rw [if_neg ha, if_neg (fun h => ha h.symm)]
        simp
    rw [haddm]
    ring

/-- Folded keys are the starting keys plus the contribution keys. -/
theorem mem_keys_foldAdd :
    ∀ (cs : List ((Str × Str) × ℚ)) (m : AggMap) (a : Str × Str),
      a ∈ (foldAdd m cs).map Prod.fst ↔
        a ∈ m.map Prod.fst ∨ a ∈ cs.map Prod.fst
  | [], m, a => by simp [foldAdd]
  | (k, v) :: cs, m, a => by
    have hstep : foldAdd m ((k, v) :: cs) = foldAdd (addToMap m k v) cs := rfl
    rw [hstep]
    simp only [mem_keys_foldAdd cs (addToMap m k v) a, mem_keys_addToMap m k v a,
      List.map_cons, List.mem_cons]
    tauto

/-- Folding preserves distinctness of the keys. -/
theorem nodup_keys_foldAdd :
    ∀ (cs : List ((Str × Str) × ℚ)) (m : AggMap),
      (m.map Prod.fst).Nodup → ((foldAdd m cs).map Prod.fst).Nodup
  | [], _, h => h
  | (k, v) :: cs, m, h =>
    nodup_keys_foldAdd cs (addToMap m k v) (nodup_keys_addToMap m k v h)

/-- `keySum` distributes over append. -/
theorem keySum_append :
    ∀ (cs1 cs2 : List ((Str × Str) × ℚ)) (a : Str × Str),
      keySum (cs1 ++ cs2) a = keySum cs1 a + keySum cs2 a
  | [], cs2, a => by simp [keySum]
  | (k, v) :: cs1, cs2, a => by
    simp only [List.cons_append, List.append_eq, keySum, keySum_append cs1 cs2 a]
    ring

/-- Contributions whose keys all carry another identifier sum to zero
at `(x, mo)`. -/
theorem keySum_eq_zero_of_ne :
    ∀ (cs : List ((Str × Str) × ℚ)) (t x : Str) (mo : Str),
      (∀ p ∈ cs, (p.1).1 = t) → t ≠ x → keySum cs (x, mo) = 0
  | [], _, _, _, _, _ => rfl
  | (k, v) :: cs, t, x, mo, h, hne => by
    have hk : k.1 = t := h (k, v) (List.mem_cons_self _ _)
    have : k ≠ (x, mo) := by
      intro he
      rw [he] at hk
      exact hne hk.symm
    simp only [keySum, if_neg this, zero_add]
    exact keySum_eq_zero_of_ne cs t x mo
      (fun p hp => h p (List.mem_cons_of_mem _ hp)) hne

/-! ### Inversion and collection lemmas -/

/-- A contribution's key is the processed identifier paired with the
derived month, and it matches any supplied month filter. -/
theorem processItem_add_inv {imei : Str} {inputMonth : Option Str} {item : Item}
    {k : Str × Str} {v : ℚ}
    (h : processItem imei inputMonth item = .ok (.add k v)) :
    k.1 = imei ∧ ∀ f, inputMonth = some f → k.2 = f := by
  by_cases ht : typeTag item = some (str "trip")
  · cases hs : startTs item with
    | none =>
      rw [processItem_crash_of_start imei inputMonth ht hs] at h
      exact Except.noConfusion h
    | some t =>
      by_cases hy : yearAt t < 2 ^ 32
      · rw [processItem_trip_eq imei inputMonth t ht hs hy] at h
        obtain ⟨hk, hf⟩ := yearMonthPart_add_inv h
        subst hk
        exact ⟨rfl, fun f h2 => hf f h2⟩
      · rw [processItem_crash_of_yearbound imei inputMonth t ht hs hy] at h
        exact Except.noConfusion h
  · rw [processItem_skip_of_type imei inputMonth ht] at h
    simp at h

/-- Every contribution collected for one identifier carries that
identifier. -/
theorem processItems_keys (imei : Str) (inputMonth : Option Str) :
    ∀ (its : List Item) (cs : List ((Str × Str) × ℚ)),
      processItems imei inputMonth its = .ok cs → ∀ p ∈ cs, (p.1).1 = imei
  | [], cs, h => by
    cases Except.ok.inj h
    intro p hp
    exact absurd hp (List.not_mem_nil p)
  | it :: its, cs, h => by
    unfold processItems at h
    cases hpi : processItem imei inputMonth it with
    | error e =>
      rw [hpi] at h
      exact Except.noConfusion h
    | ok c =>
      rw [hpi] at h
      cases c with
      | skip =>
        dsimp only at h
        exact processItems_keys imei inputMonth its cs h
      | add k v =>
        dsimp only at h
        cases hrest : processItems imei inputMonth its with
        | error e =>
          rw [hrest] at h
          exact Except.noConfusion h
        | ok cs2 =>
          rw [hrest] at h
          cases Except.ok.inj h
          intro p hp
          rcases List.mem_cons.mp hp with h1 | h1
          · subst h1
            exact (processItem_add_inv hpi).1
          · exact processItems_keys imei inputMonth its cs2 hrest p h1

/-- The total contributed at `(x, mo)` over the whole token list is the
number of occurrences of `x` times the per-occurrence sum (queries are
deterministic, and other identifiers contribute nothing at `x`). -/
theorem keySum_allContribs (query : Str → Except Unit (List Item)) (inputMonth : Option Str)
    (x : Str) (items : List Item) (cs : List ((Str × Str) × ℚ))
    (hq : query x = .ok items) (hcs : processItems x inputMonth items = .ok cs) :
    ∀ (toks : List Str) (acs : List ((Str × Str) × ℚ)),
      allContribs query inputMonth toks = .ok acs →
      ∀ mo : Str, keySum acs (x, mo) = (toks.count x : ℚ) * keySum cs (x, mo)
  | [], acs, h, mo => by
    cases Except.ok.inj h
    simp [keySum]
  | t :: ts, acs, h, mo => by
    unfold allContribs at h
    cases hqt : query t with
    | error e =>
      rw [hqt] at h
      exact Except.noConfusion h
    | ok its =>
      rw [hqt] at h
      dsimp only at h
      cases hps : processItems t inputMonth its with
      | error e =>
        rw [hps] at h
        exact Except.noConfusion h
      | ok cst =>
        rw [hps] at h
        dsimp only at h
        cases hac : allContribs query inputMonth ts with
        | error e =>
          rw [hac] at h
          exact Except.noConfusion h
        | ok rest =>
          rw [hac] at h
          cases Except.ok.inj h
          rw [keySum_append]
          rw [keySum_allContribs query inputMonth x items cs hq hcs ts rest hac mo]
          by_cases hx : t = x
          · subst hx
            have hits : its = items := Except.ok.inj (hqt.symm.trans hq)
            subst hits
            have hcst : cst = cs := Except.ok.inj (hps.symm.trans hcs)
            subst hcst
            rw [List.count_cons_self]
            push_cast
            ring
          · have hz : keySum cst (x, mo) = 0 :=
              keySum_eq_zero_of_ne cst t x mo (processItems_keys t inputMonth its cst hps) hx
            rw [hz, List.count_cons_of_ne (fun hxx => hx hxx.symm)]
            ring

/-! ### Run-phase lemmas -/

theorem finishRun_error (putOk : Str → Str → ℚ → Bool) (qs : List Str) (err : FatalErr) :
    finishRun putOk (qs, .error err) = ⟨.fatal err, qs, []⟩ := rfl

theorem finishRun_ok (putOk : Str → Str → ℚ → Bool) (qs : List Str) (m : AggMap) :
    finishRun putOk (qs, .ok m) =
      if (doWrites putOk m).2 then
        ⟨.success (m.map fun p => ⟨p.1.1, p.1.2, p.2⟩), qs, (doWrites putOk m).1⟩
      else ⟨.fatal .writeError, qs, (doWrites putOk m).1⟩ := rfl

theorem getRideData_empty (w : World) (e : CustomEvent) (he : e.imeis = []) :
    getRideData w e = ⟨.validationError (str "IMEI cannot be empty"), [], []⟩ := by
  unfold getRideData
  rw [he]
  rfl

theorem getRideData_nonempty (w : World) (e : CustomEvent) (he : e.imeis ≠ []) :
    getRideData w e =
      finishRun w.putOk (aggRun w.query e.input_ride_month (splitOnChar ',' e.imeis) []) := by
  unfold getRideData
  rw [if_neg (by simpa [List.isEmpty_iff] using he)]

/-- Total reported in the response payload for `(i, mo)` (zero when the
key is absent). -/
def resultTotal (out : List CustomOutput) (i mo : Str) : ℚ :=
  match out.find? (fun o => o.imei == i && o.ride_month == mo) with
  | none => 0
  | some o => o.total_distance

/-- The serialized payload reports exactly the accumulator totals. -/
theorem resultTotal_map (i mo : Str) :
    ∀ m : AggMap,
      resultTotal (m.map fun p => ⟨p.1.1, p.1.2, p.2⟩) i mo = totalOfD m (i, mo)
  | [] => rfl
  | (k, v) :: rest => by
    have hstep : (((k, v) :: rest).map fun p => (⟨p.1.1, p.1.2, p.2⟩ : CustomOutput)) =
        ⟨k.1, k.2, v⟩ :: (rest.map fun p => ⟨p.1.1, p.1.2, p.2⟩) := rfl
    rw [hstep]
    by_cases hk : k = (i, mo)
    · have hpred : ((⟨k.1, k.2, v⟩ : CustomOutput).imei == i &&
          (⟨k.1, k.2, v⟩ : CustomOutput).ride_month == mo) = true := by
        rw [hk]
        simp
      unfold resultTotal
      rw [@List.find?_cons_of_pos CustomOutput
        (fun o => o.imei == i && o.ride_month == mo) ⟨k.1, k.2, v⟩
        (rest.map fun p => ⟨p.1.1, p.1.2, p.2⟩) hpred]
      unfold totalOfD lookupAgg
      rw [if_pos hk]
      rfl
    · have hpred : ¬ (((⟨k.1, k.2, v⟩ : CustomOutput).imei == i &&
          (⟨k.1, k.2, v⟩ : CustomOutput).ride_month == mo) = true) := by
        simp only [Bool.and_eq_true, beq_iff_eq]
        intro hand
        exact hk (Prod.ext hand.1 hand.2)
      unfold resultTotal
      rw [@List.find?_cons_of_neg CustomOutput
        (fun o => o.imei == i && o.ride_month == mo) ⟨k.1, k.2, v⟩
        (rest.map fun p => ⟨p.1.1, p.1.2, p.2⟩) hpred]
      have hrec : (match (rest.map fun p => (⟨p.1.1, p.1.2, p.2⟩ : CustomOutput)).find?
            (fun o => o.imei == i && o.ride_month == mo) with
          | none => (0 : ℚ)
          | some o => o.total_distance) =
          resultTotal (rest.map fun p => ⟨p.1.1, p.1.2, p.2⟩) i mo := rfl
      rw [hrec, resultTotal_map i mo rest]
      have hlk : totalOfD ((k, v) :: rest) (i, mo) =
          (if k = (i, mo) then some v else lookupAgg rest (i, mo)).getD 0 := rfl
      rw [hlk, if_neg hk]
      rfl

/-- The write loop on a split at the first failing put: the successful
prefix is committed, nothing after it is. -/
theorem doWrites_fail :
    ∀ (pre : AggMap) (k : Str × Str) (v : ℚ) (post : AggMap)
      (putOk : Str → Str → ℚ → Bool),
      (∀ p ∈ pre, putOk (p.1).1 (p.1).2 p.2 = true) → putOk k.1 k.2 v = false →
      doWrites putOk (pre ++ (k, v) :: post) =
        (pre.map (fun p => ((p.1).1, (p.1).2, p.2)), false)
  | [], k, v, post, putOk, _, hk => by
    obtain ⟨k1, k2⟩ := k
    dsimp only at hk
    rw [List.nil_append]
    conv_lhs => unfold doWrites
    rw [hk]
    rfl
  | (k', v') :: pre, k, v, post, putOk, hpre, hk => by
    obtain ⟨i', mo'⟩ := k'
    have hp := hpre ((i', mo'), v') (List.mem_cons_self _ _)
    dsimp only at hp
    rw [List.cons_append]
    conv_lhs => unfold doWrites
    rw [hp]
    dsimp only
    rw [doWrites_fail pre k v post putOk
      (fun p hp2 => hpre p (List.mem_cons_of_mem _ hp2)) hk]
    rfl

/-- `finishRun` preserves the queried log. -/
theorem finishRun_queried (putOk : Str → Str → ℚ → Bool)
    (r : List Str × Except FatalErr AggMap) :
    (finishRun putOk r).queried = r.1 := by
  obtain ⟨qs, ex⟩ := r
  cases ex with
  | error err => rfl
  | ok m =>
    rw [finishRun_ok]
    split <;> rfl

/-- `finishRun` never produces the validation error. -/
theorem finishRun_ne_validation (putOk : Str → Str → ℚ → Bool)
    (r : List Str × Except FatalErr AggMap) (msg : Str) :
    (finishRun putOk r).result ≠ .validationError msg := by
  obtain ⟨qs, ex⟩ := r
  cases ex with
  | error err => simp [finishRun_error]
  | ok m =>
    rw [finishRun_ok, apply_ite Trace.result]
    split <;> simp

/-- Decomposition of a successful invocation. -/
theorem getRideData_success_inv (w : World) (e : CustomEvent) (out : List CustomOutput)
    (h : (getRideData w e).result = .success out) :
    e.imeis ≠ [] ∧
    ∃ m : AggMap,
      (aggRun w.query e.input_ride_month (splitOnChar ',' e.imeis) []).2 = .ok m ∧
      out = m.map (fun p => ⟨p.1.1, p.1.2, p.2⟩) ∧
      (doWrites w.putOk m).2 = true := by
  by_cases he : e.imeis = []
  · rw [getRideData_empty w e he] at h
    exact absurd h (by simp)
  · refine ⟨he, ?_⟩
    rw [getRideData_nonempty w e he] at h
    rw [show aggRun w.query e.input_ride_month (splitOnChar ',' e.imeis) [] =
      ((aggRun w.query e.input_ride_month (splitOnChar ',' e.imeis) []).1,
       (aggRun w.query e.input_ride_month (splitOnChar ',' e.imeis) []).2) from rfl] at h
    cases hr2 : (aggRun w.query e.input_ride_month (splitOnChar ',' e.imeis) []).2 with
    | error err =>
      rw [hr2, finishRun_error] at h
      exact absurd h (by simp)
    | ok m =>
      rw [hr2, finishRun_ok, apply_ite Trace.result] at h
      by_cases hw : (doWrites w.putOk m).2
      · rw [if_pos hw] at h
        exact ⟨m, rfl, (RunResult.success.inj h).symm, hw⟩
      · rw [if_neg hw] at h
        exact absurd h (by simp)

/-! ### Claim C3: validation and token querying -/

/-- C3: the invocation is rejected with the structured result
"IMEI cannot be empty" — with no store interaction — exactly when the
raw `imeis` string is completely empty; any other string is split on
commas, and on a successful run every token (empty tokens included) is
queried against the store as a literal identifier, in order. -/
theorem claimC3_validation (w : World) (e : CustomEvent) :
    ((∃ msg, (getRideData w e).result = .validationError msg) ↔ e.imeis = str "") ∧
    (e.imeis = str "" →
      getRideData w e = ⟨.validationError (str "IMEI cannot be empty"), [], []⟩) ∧
    (∀ out, (getRideData w e).result = .success out →
      (getRideData w e).queried = splitOnChar ',' e.imeis) := by
  have hstr : str "" = ([] : Str) := rfl
  refine ⟨⟨?_, ?_⟩, ?_, ?_⟩
  · rintro ⟨msg, hmsg⟩
    rw [hstr]
    by_contra he
    rw [getRideData_nonempty w e he] at hmsg
    exact finishRun_ne_validation w.putOk _ msg hmsg
  · intro he
    rw [getRideData_empty w e (hstr ▸ he)]
    exact ⟨str "IMEI cannot be empty", rfl⟩
  · intro he
    exact getRideData_empty w e (hstr ▸ he)
  · intro out hout
    obtain ⟨he, m, hok, -, -⟩ := getRideData_success_inv w e out hout
    rw [getRideData_nonempty w e he, finishRun_queried]
    exact aggRun_queried_of_ok w.query e.input_ride_month _ [] m hok

/-- A store with no records at all and reliable writes. -/
def emptyWorld : World := ⟨fun _ => .ok [], fun _ _ _ => true⟩

/-- C3 witness: the empty string is rejected with no interaction, and
"111,,222" leads to three literal queries, the empty token included. -/
theorem claimC3_witness :
    (getRideData emptyWorld ⟨str "", none⟩ =
      ⟨.validationError (str "IMEI cannot be empty"), [], []⟩) ∧
    (getRideData emptyWorld ⟨str "111,,222", none⟩).queried =
      [str "111", str "", str "222"] := by
  constructor
  · exact (claimC3_validation emptyWorld ⟨str "", none⟩).2.1 rfl
  · exact ((claimC3_validation emptyWorld ⟨str "111,,222", none⟩).2.2 []
      (by with_unfolding_all rfl)).trans (by decide)

/-! ### Claim C7: the concrete November-2023 scenario -/

/-- The store holding exactly one record, the November-2023 trip of
device "111", with reliable writes. -/
def worldNov : World :=
  ⟨fun i => if i = str "111" then .ok [itemNov] else .ok [], fun _ _ _ => true⟩

/-- C7: timestamps are interpreted as UTC epoch seconds, shifted to the
fixed offset UTC+5:30 and bucketed by `YYYY-MM` month: for identifier
"111" with the single record {type "trip", start 1700000000,
ride_distance "12.5"} the invocation returns exactly one aggregate,
(imei "111", ride_month "2023-11", total_distance 12.5) — and writes
exactly that aggregate. -/
theorem claimC7_concrete :
    getRideData worldNov ⟨str "111", none⟩ =
      ⟨.success [⟨str "111", str "2023-11", 25 / 2⟩], [str "111"],
       [(str "111", str "2023-11", 25 / 2)]⟩ := by
  with_unfolding_all rfl

/-! ### Claim C8: failure handling -/

/-- C8: an upstream query failure (reached after a clean prefix of
identifiers) aborts the whole invocation as a fatal error with no write
ever issued — indeed any fatal abort of the aggregation phase leaves
the downstream store untouched; and a failure on one downstream write
aborts the remaining writes and the invocation as a fatal error, with
exactly the writes committed before the failing one left in place. -/
theorem claimC8_failures (w : World) (e : CustomEvent) :
    (∀ err, (getRideData w e).result = .fatal err → err ≠ .writeError →
      (getRideData w e).written = []) ∧
    (∀ pre t post qs m, e.imeis ≠ [] →
      splitOnChar ',' e.imeis = pre ++ t :: post →
      aggRun w.query e.input_ride_month pre [] = (qs, .ok m) →
      w.query t = .error () →
      getRideData w e = ⟨.fatal .queryError, qs ++ [t], []⟩) ∧
    (∀ qs m pre k v post, e.imeis ≠ [] →
      aggRun w.query e.input_ride_month (splitOnChar ',' e.imeis) [] = (qs, .ok m) →
      m = pre ++ (k, v) :: post →
      (∀ p ∈ pre, w.putOk (p.1).1 (p.1).2 p.2 = true) →
      w.putOk k.1 k.2 v = false →
      getRideData w e =
        ⟨.fatal .writeError, qs, pre.map (fun p => ((p.1).1, (p.1).2, p.2))⟩) := by
  refine ⟨?_, ?_, ?_⟩
  · intro err herr hne
    by_cases he : e.imeis = []
    · rw [getRideData_empty w e he]
    · rw [getRideData_nonempty w e he] at herr ⊢
      rw [show aggRun w.query e.input_ride_month (splitOnChar ',' e.imeis) [] =
        ((aggRun w.query e.input_ride_month (splitOnChar ',' e.imeis) []).1,
         (aggRun w.query e.input_ride_month (splitOnChar ',' e.imeis) []).2) from rfl]
        at herr ⊢
      cases hr2 : (aggRun w.query e.input_ride_month (splitOnChar ',' e.imeis) []).2 with
      | error err2 => rw [finishRun_error]
      | ok m =>
        rw [hr2, finishRun_ok, apply_ite Trace.result] at herr
        rw [finishRun_ok]
        by_cases hw : (doWrites w.putOk m).2
        · rw [if_pos hw] at herr
          exact absurd herr (by simp)
        · rw [if_neg hw] at herr
          exact absurd (RunResult.fatal.inj herr).symm hne
  · intro pre t post qs m he hsplit hpre hq
    rw [getRideData_nonempty w e he, hsplit,
      aggRun_append w.query e.input_ride_month pre (t :: post) [] qs m hpre,
      aggRun_cons_qerr w.query e.input_ride_month t post m () hq]
    exact finishRun_error w.putOk (qs ++ [t]) .queryError
  · intro qs m pre k v post he hagg hm hpreOk hkfail
    rw [getRideData_nonempty w e he, hagg, finishRun_ok, hm,
      doWrites_fail pre k v post w.putOk hpreOk hkfail]
    rfl

/-- A world whose single query fails. -/
def failQueryWorld : World := ⟨fun _ => .error (), fun _ _ _ => true⟩

/-- A world holding the November record but rejecting every write. -/
def failWriteWorld : World :=
  ⟨fun i => if i = str "111" then .ok [itemNov] else .ok [], fun _ _ _ => false⟩

/-- C8 witness: a failing query aborts with no writes; a failing write
on the single aggregate aborts with no committed writes (the failing
write is the first). -/
theorem claimC8_witness :
    (getRideData failQueryWorld ⟨str "111", none⟩ =
      ⟨.fatal .queryError, [str "111"], []⟩) ∧
    (getRideData failWriteWorld ⟨str "111", none⟩ =
      ⟨.fatal .writeError, [str "111"], []⟩) := by
  constructor
  · have h := (claimC8_failures failQueryWorld ⟨str "111", none⟩).2.1
      [] (str "111") [] [] [] (by decide) (by decide) rfl rfl
    simpa using h
  · have h := (claimC8_failures failWriteWorld ⟨str "111", none⟩).2.2
      [str "111"] [((str "111", str "2023-11"), 25 / 2)]
      [] (str "111", str "2023-11") (25 / 2) [] (by decide)
      (by with_unfolding_all rfl) rfl (by intro p hp; exact absurd hp (List.not_mem_nil p))
      rfl
    simpa using h

/-! ### Claim C9: one result item per contributed key -/

/-- A November-2023 trip record whose distance string "abc" does not
parse, so it contributes exactly 0.0. -/
def itemAbc : Item :=
  [(str "ride_type", .S (str "trip")),
   (str "ride_start", .N (str "1700000000")),
   (str "ride_stats", .M [(str "ride_distance", .S (str "abc"))])]

/-- The store holding only `itemAbc` for device "111", with reliable
writes. -/
def worldAbc : World :=
  ⟨fun i => if i = str "111" then .ok [itemAbc] else .ok [], fun _ _ _ => true⟩

/-- C9 counterexample: a key whose only contribution is zero (distance
"abc" parses to 0.0) still produces a result item and a downstream
write — refuting the claim that zero-only keys yield no item and no
write. -/
theorem claimC9_counterexample :
    processItems (str "111") none [itemAbc] = .ok [((str "111", str "2023-11"), 0)] ∧
    getRideData worldAbc ⟨str "111", none⟩ =
      ⟨.success [⟨str "111", str "2023-11", 0⟩], [str "111"],
       [(str "111", str "2023-11", 0)]⟩ := by
  constructor
  · with_unfolding_all rfl
  · with_unfolding_all rfl

/-- C9 (amended): on a successful run the result sequence has exactly
one item per distinct (identifier, month) key that received at least
one contribution from a record surviving all filters — zero-valued
contributions included — and no item for any other key. -/
theorem claimC9_items_per_key (w : World) (e : CustomEvent) (out : List CustomOutput)
    (h : (getRideData w e).result = .success out) :
    (out.map fun o => (o.imei, o.ride_month)).Nodup ∧
    ∃ cs, allContribs w.query e.input_ride_month (splitOnChar ',' e.imeis) = .ok cs ∧
      ∀ k : Str × Str,
        (∃ o ∈ out, (o.imei, o.ride_month) = k) ↔ k ∈ cs.map Prod.fst := by
  obtain ⟨he, m, hok, hout, hw⟩ := getRideData_success_inv w e out h
  have hfact := aggRun_eq_foldAdd w.query e.input_ride_month (splitOnChar ',' e.imeis) []
  rw [hok] at hfact
  cases hac : allContribs w.query e.input_ride_month (splitOnChar ',' e.imeis) with
  | error err =>
    rw [hac] at hfact
    exact absurd hfact (by simp [Except.map])
  | ok cs =>
    rw [hac, exceptMap_ok] at hfact
    have hm : m = foldAdd [] cs := Except.ok.inj hfact
    have hkeys : (out.map fun o => (o.imei, o.ride_month)) = m.map Prod.fst := by
      rw [hout, List.map_map]
      exact List.map_congr_left fun p _ => rfl
    constructor
    · rw [hkeys, hm]
      exact nodup_keys_foldAdd cs [] (by simp)
    · refine ⟨cs, rfl, fun k => ?_⟩
      have h1 : (∃ o ∈ out, (o.imei, o.ride_month) = k) ↔
          k ∈ (out.map fun o => (o.imei, o.ride_month)) := List.mem_map.symm
      rw [h1, hkeys, hm]
      rw [mem_keys_foldAdd cs [] k]
      simp

/-- C9 witness: in the concrete November scenario the single result
item's key is distinct and corresponds to the single contribution. -/
theorem claimC9_witness :
    (([⟨str "111", str "2023-11", 25 / 2⟩] : List CustomOutput).map
      fun o => (o.imei, o.ride_month)).Nodup :=
  (claimC9_items_per_key worldNov ⟨str "111", none⟩ [⟨str "111", str "2023-11", 25 / 2⟩]
    (by with_unfolding_all rfl)).1

/-! ### Claim C10: duplicated identifiers are not de-duplicated -/

/-- C10: the identifier list is not de-duplicated — on a successful run,
if `x` occurs `k` times among the comma-separated tokens, then for every
month the reported total for `(x, month)` is `k` times the sum a single
occurrence of `x` contributes (its records are fetched and accumulated
once per occurrence). -/
theorem claimC10_duplicate_imeis (w : World) (e : CustomEvent) (out : List CustomOutput)
    (h : (getRideData w e).result = .success out)
    (x : Str) (items : List Item) (cs : List ((Str × Str) × ℚ))
    (hq : w.query x = .ok items)
    (hcs : processItems x e.input_ride_month items = .ok cs) :
    ∀ mo : Str, resultTotal out x mo =
      ((splitOnChar ',' e.imeis).count x : ℚ) * keySum cs (x, mo) := by
  obtain ⟨he, m, hok, hout, hw⟩ := getRideData_success_inv w e out h
  have hfact := aggRun_eq_foldAdd w.query e.input_ride_month (splitOnChar ',' e.imeis) []
  rw [hok] at hfact
  cases hac : allContribs w.query e.input_ride_month (splitOnChar ',' e.imeis) with
  | error err =>
    rw [hac] at hfact
    exact absurd hfact (by simp [Except.map])
  | ok acs =>
    rw [hac, exceptMap_ok] at hfact
    have hm : m = foldAdd [] acs := Except.ok.inj hfact
    intro mo
    rw [hout, resultTotal_map, hm, totalOfD_foldAdd,
      show totalOfD [] (x, mo) = 0 from rfl, zero_add]
    exact keySum_allContribs w.query e.input_ride_month x items cs hq hcs
      (splitOnChar ',' e.imeis) acs hac mo

/-- C10 witness: with the token list "111,111" the reported total for
("111", "2023-11") is 25 = 2 × 12.5. -/
theorem claimC10_witness :
    resultTotal [⟨str "111", str "2023-11", 25⟩] (str "111") (str "2023-11") =
      (((splitOnChar ',' (str "111,111")).count (str "111") : ℕ) : ℚ) *
        keySum [((str "111", str "2023-11"), 25 / 2)] (str "111", str "2023-11") :=
  claimC10_duplicate_imeis worldNov ⟨str "111,111", none⟩
    [⟨str "111", str "2023-11", 25⟩] (by with_unfolding_all rfl)
    (str "111") [itemNov] [((str "111", str "2023-11"), 25 / 2)]
    (by with_unfolding_all rfl) (by with_unfolding_all rfl) (str "2023-11")

end RideData
